import Mathlib

set_option maxHeartbeats 1000000

/-!
Shallow embedding of lib/CachedInputFileSystem.js (enhanced-resolve).

The JavaScript file defines two backend classes, OperationMergerBackend and
CacheBackend, over a doubly-linked-list LRUCache, plus the helper functions
dirname and runCallbacks and the CachedInputFileSystem facade whose
constructor synthesizes readJson from readFile.

Modelling choices, all derived from the source:
* machine state is passed explicitly; continuations (JS callbacks) are
  identified by natural numbers and an invocation of a continuation is
  recorded as a Delivery value in the output of the step that performed it;
* JS callback arrays are mutable objects shared by reference between the
  _activeAsyncOperations registry and the completion closures of issued
  provider calls, so arrays live in a heap (a list of arrays addressed by
  index) and both the registry and the pending-operation records hold
  array ids;
* the underlying provider is external: issuing the async provider is
  recorded as a ProvCall and as a pending operation; its completion is a
  separate event carrying the (err, result) pair the provider produced;
  the sync provider outcome is an argument of the provideSync event;
* the LRUCache map plus doubly-linked recency list (head = least recently
  used, tail = most recently used) is represented as one association list
  in recency order, head first, with unique keys.
-/

deriving instance DecidableEq for Except

/-- A JS path argument: either a string or any non-string value
(all non-strings behave alike for this code, so they are collapsed). -/
inductive JSPath where
  | str (s : String)
  | nonStr
deriving DecidableEq, Repr

/-- Errors flowing through a backend: the TypeError thrown for non-string
paths (source lines 64, 212, 250) or an arbitrary error produced by the
underlying provider. -/
inductive JSErr (ε : Type) where
  | typeErr
  | provErr (e : ε)
deriving DecidableEq, Repr

/-- A cached outcome, the object stored by CacheBackend._storeResult
(line 308): the err and result fields, each possibly undefined. -/
structure Entry (ε ρ : Type) where
  err : Option (JSErr ε)
  result : Option ρ
deriving DecidableEq, Repr

/-- One continuation invocation: (callback id, err argument, result
argument). -/
abbrev Delivery (ε ρ : Type) := Nat × Option (JSErr ε) × Option ρ

/-- Lookup in an association list, as Map.prototype.get. -/
def alookup {α : Type} : List (String × α) → String → Option α
  | [], _ => none
  | p :: rest, k => if p.1 = k then some p.2 else alookup rest k

/-- Removal from an association list, as Map.prototype.delete (keys are
unique, so removing the first occurrence is exact). -/
def aerase {α : Type} : List (String × α) → String → List (String × α)
  | [], _ => []
  | p :: rest, k => if p.1 = k then rest else p :: aerase rest k

/-- LRUCache (lines 99-184): capacity plus the association list standing
for the map and the recency list together. -/
structure LRUCache (ε ρ : Type) where
  cap : Nat
  list : List (String × Entry ε ρ)
deriving DecidableEq, Repr

def LRUCache.empty (ε ρ : Type) (cap : Nat) : LRUCache ε ρ := ⟨cap, []⟩

/-- map.get on the cache contents (no recency side effect). -/
def afind {ε ρ : Type} : List (String × Entry ε ρ) → String → Option (Entry ε ρ)
  | [], _ => none
  | p :: rest, k => if p.1 = k then some p.2 else afind rest k

/-- removeNode on the node holding the given key (lines 157-169): unlink
it from the recency list. -/
def lruRemove {ε ρ : Type} : List (String × Entry ε ρ) → String → List (String × Entry ε ρ)
  | [], _ => []
  | p :: rest, k => if p.1 = k then rest else p :: lruRemove rest k

/-- LRUCache.get (lines 109-121): on a hit, removeNode then offerNode
moves the node to the tail (most recently used) and the value is
returned; on a miss the cache is untouched and undefined is returned. -/
def LRUCache.get {ε ρ : Type} (c : LRUCache ε ρ) (k : String) :
    Option (Entry ε ρ) × LRUCache ε ρ :=
  match afind c.list k with
  | none => (none, c)
  | some v => (some v, ⟨c.cap, lruRemove c.list k ++ [(k, v)]⟩)

/-- LRUCache.put (lines 123-143): an existing key is updated and moved to
the tail; a fresh key is appended at the tail, after deleting the head
(the least recently used node) when the entry count has reached the
capacity. createBackend (line 313) only builds caches with cap ≥ 1, and
there list.drop 1 is exactly map.delete(head.key); removeNode(head). -/
def LRUCache.put {ε ρ : Type} (c : LRUCache ε ρ) (k : String) (v : Entry ε ρ) :
    LRUCache ε ρ :=
  if (afind c.list k).isSome then
    ⟨c.cap, lruRemove c.list k ++ [(k, v)]⟩
  else if c.cap ≤ c.list.length then
    ⟨c.cap, c.list.drop 1 ++ [(k, v)]⟩
  else
    ⟨c.cap, c.list ++ [(k, v)]⟩

/-- LRUCache.size (lines 145-147). -/
def LRUCache.size {ε ρ : Type} (c : LRUCache ε ρ) : Nat := c.list.length

/-- LRUCache.purge (lines 149-155): drop the map and both list ends. -/
def LRUCache.purge {ε ρ : Type} (c : LRUCache ε ρ) : LRUCache ε ρ := ⟨c.cap, []⟩

/-- Pure observation of a cached entry, for stating properties. -/
def LRUCache.peek {ε ρ : Type} (c : LRUCache ε ρ) (k : String) : Option (Entry ε ρ) :=
  afind c.list k

/-- A get/put instruction for exercising an LRUCache. -/
inductive LOp (ε ρ : Type) where
  | get (k : String)
  | put (k : String) (v : Entry ε ρ)
deriving DecidableEq, Repr

/-- Run a sequence of get/put operations on an LRUCache. -/
def LRUCache.apply {ε ρ : Type} (c : LRUCache ε ρ) : List (LOp ε ρ) → LRUCache ε ρ
  | [] => c
  | .get k :: ops => LRUCache.apply (c.get k).2 ops
  | .put k v :: ops => LRUCache.apply (c.put k v) ops

/-- dirname (lines 11-21): scan backwards for a slash or a backslash
(char codes 47 and 92); slice(0, idx) keeps the first idx characters;
an empty string results when no separator exists. -/
def isSlash (c : Char) : Bool := c = Char.ofNat 47 || c = Char.ofNat 92

def dirname (path : String) : String :=
  match path.data.reverse.findIdx? isSlash with
  | none => ""
  | some r => String.mk (path.data.take (path.data.length - 1 - r))

/-- runCallbacks (lines 23-35) on the contents of a callback array:
every callback receives the same (err, result) pair, in array order.
With exactly one callback the early return at line 24 leaves the array
untouched; otherwise line 33 resets the array length to 0. The pair
returned is (deliveries made, array contents left behind). Continuations
are modelled as non-throwing observers, so the try/catch of lines 27-31
never fires. -/
def runCallbacksArr {ε ρ : Type} (cbs : List Nat) (err : Option (JSErr ε))
    (res : Option ρ) : List (Delivery ε ρ) × List Nat :=
  if cbs.length = 1 then (cbs.map (fun c => (c, err, res)), cbs)
  else (cbs.map (fun c => (c, err, res)), [])

/-- Heap read of a callback array. -/
def getArr (arrays : List (List Nat)) (aid : Nat) : List Nat := arrays.getD aid []

/-- Heap write of a callback array. -/
def setArr (arrays : List (List Nat)) (aid : Nat) (v : List Nat) : List (List Nat) :=
  arrays.set aid v

/-- An underlying provider invocation performed by a backend. -/
inductive ProvCall where
  | asyncCall (path : String)
  | asyncBypass (path : JSPath)
  | syncCall (path : String)
  | syncBypass (path : JSPath)
deriving DecidableEq, Repr

/-- What one backend step did: the continuation invocations it performed
itself, before returning to its caller (for a provide event these are the
re-entrant callback invocations the source makes directly, e.g. lines
227-228; provider completions arriving later are separate events), the
underlying provider invocations it issued, and for provideSync the value
returned or error thrown to the synchronous caller. -/
structure Out (ε ρ : Type) where
  deliveries : List (Delivery ε ρ)
  calls : List ProvCall
  syncRet : Option (Except (JSErr ε) (Option ρ))
deriving DecidableEq, Repr

/-- CacheBackend state (lines 186-204): the LRU cache, the callback-array
heap, the _activeAsyncOperations registry (path to array id), and the
issued but uncompleted async provider invocations together with the array
each completion closure captured (lines 240-245). -/
structure CacheState (ε ρ : Type) where
  lru : LRUCache ε ρ
  arrays : List (List Nat)
  active : List (String × Nat)
  pendingOps : List (String × Nat)
deriving DecidableEq, Repr

/-- A freshly constructed CacheBackend (constructor lines 193-204). -/
def CacheState.init (ε ρ : Type) (cap : Nat) : CacheState ε ρ :=
  ⟨LRUCache.empty ε ρ cap, [], [], []⟩

/-- CacheBackend.provide (lines 206-246). Note the order: the string
check of line 211 comes before the options bypass of line 215. The
options bypass hands path, options and callback straight to the provider
(whose later activity is outside the backend); a cache hit invokes the
callback directly with the stored err or result; otherwise the call
joins the active operation for the path or issues a new provider
invocation whose closure captures the fresh callback array. -/
def CacheBackend.provide {ε ρ : Type} (s : CacheState ε ρ) (path : JSPath)
    (options : Bool) (cb : Nat) : CacheState ε ρ × Out ε ρ :=
  match path with
  | .nonStr => (s, ⟨[(cb, some .typeErr, none)], [], none⟩)
  | .str p =>
    if options then
      (s, ⟨[], [.asyncBypass (.str p)], none⟩)
    else
      match s.lru.get p with
      | (some entry, lru2) =>
        match entry.err with
        | some e => ({ s with lru := lru2 }, ⟨[(cb, some e, none)], [], none⟩)
        | none => ({ s with lru := lru2 }, ⟨[(cb, none, entry.result)], [], none⟩)
      | (none, lru2) =>
        match alookup s.active p with
        | some aid =>
          ({ s with lru := lru2,
                    arrays := setArr s.arrays aid (getArr s.arrays aid ++ [cb]) },
           ⟨[], [], none⟩)
        | none =>
          ({ s with lru := lru2,
                    arrays := s.arrays ++ [[cb]],
                    active := s.active ++ [(p, s.arrays.length)],
                    pendingOps := s.pendingOps ++ [(p, s.arrays.length)] },
           ⟨[], [.asyncCall p], none⟩)

/-- CacheBackend.provideSync (lines 248-281). syncOutcome is what the
underlying sync provider does if invoked: return a value (possibly
undefined) or throw. On a cache miss the active async operation for the
path, if any, is adopted: its registry entry is deleted and its array is
run with the sync outcome (lines 263-279), then the outcome is returned
or rethrown to the synchronous caller. -/
def CacheBackend.provideSync {ε ρ : Type} (s : CacheState ε ρ) (path : JSPath)
    (options : Bool) (syncOutcome : Except (JSErr ε) (Option ρ)) :
    CacheState ε ρ × Out ε ρ :=
  match path with
  | .nonStr => (s, ⟨[], [], some (.error .typeErr)⟩)
  | .str p =>
    if options then
      (s, ⟨[], [.syncBypass (.str p)], some syncOutcome⟩)
    else
      match s.lru.get p with
      | (some entry, lru2) =>
        match entry.err with
        | some e => ({ s with lru := lru2 }, ⟨[], [], some (.error e)⟩)
        | none => ({ s with lru := lru2 }, ⟨[], [], some (.ok entry.result)⟩)
      | (none, _) =>
        match syncOutcome, alookup s.active p with
        | .error e, some aid =>
          ({ s with lru := s.lru.put p ⟨some e, none⟩,
                    active := aerase s.active p,
                    arrays := setArr s.arrays aid
                      (runCallbacksArr (getArr s.arrays aid) (some e) (none : Option ρ)).2 },
           ⟨(runCallbacksArr (getArr s.arrays aid) (some e) (none : Option ρ)).1,
            [.syncCall p], some (.error e)⟩)
        | .error e, none =>
          ({ s with lru := s.lru.put p ⟨some e, none⟩, active := aerase s.active p },
           ⟨[], [.syncCall p], some (.error e)⟩)
        | .ok r, some aid =>
          ({ s with lru := s.lru.put p ⟨none, r⟩,
                    active := aerase s.active p,
                    arrays := setArr s.arrays aid
                      (runCallbacksArr (getArr s.arrays aid) (none : Option (JSErr ε)) r).2 },
           ⟨(runCallbacksArr (getArr s.arrays aid) (none : Option (JSErr ε)) r).1,
            [.syncCall p], some (.ok r)⟩)
        | .ok r, none =>
          ({ s with lru := s.lru.put p ⟨none, r⟩, active := aerase s.active p },
           ⟨[], [.syncCall p], some (.ok r)⟩)

/-- Completion of the i-th outstanding async provider invocation: the
closure of lines 240-245 deletes the registry entry for its path, stores
the outcome in the LRU, and runs the callback array it captured. An out
of range index means no such outstanding invocation: nothing happens. -/
def CacheBackend.complete {ε ρ : Type} (s : CacheState ε ρ) (i : Nat)
    (err : Option (JSErr ε)) (res : Option ρ) : CacheState ε ρ × Out ε ρ :=
  match s.pendingOps.get? i with
  | none => (s, ⟨[], [], none⟩)
  | some pa =>
    ({ s with pendingOps := s.pendingOps.eraseIdx i,
              active := aerase s.active pa.1,
              lru := s.lru.put pa.1 ⟨err, res⟩,
              arrays := setArr s.arrays pa.2
                (runCallbacksArr (getArr s.arrays pa.2) err res).2 },
     ⟨(runCallbacksArr (getArr s.arrays pa.2) err res).1, [], none⟩)

/-- The argument of purge: absent, a single string, or a collection. -/
inductive PurgeArg where
  | noArg
  | str (s : String)
  | coll (ws : List String)
deriving DecidableEq, Repr

/-- CacheBackend.purge (lines 283-291): all three branches call
lruCache.purge(), clearing the whole cache. -/
def CacheBackend.purge {ε ρ : Type} (s : CacheState ε ρ) (what : PurgeArg) :
    CacheState ε ρ :=
  match what with
  | .noArg => { s with lru := s.lru.purge }
  | .str _ => { s with lru := s.lru.purge }
  | .coll _ => { s with lru := s.lru.purge }

/-- CacheBackend.purgeParent (lines 293-305): absent argument purges all;
a string purges with its dirname; a collection purges with the set of
dirnames (the source builds a JS Set; purge ignores the collection
contents, so the list of dirnames is an exact model). -/
def CacheBackend.purgeParent {ε ρ : Type} (s : CacheState ε ρ) (what : PurgeArg) :
    CacheState ε ρ :=
  match what with
  | .noArg => CacheBackend.purge s .noArg
  | .str w => CacheBackend.purge s (.str (dirname w))
  | .coll ws => CacheBackend.purge s (.coll (ws.map dirname))

/-- An event hitting a CacheBackend: a provide or provideSync call from a
caller, the completion of an outstanding async provider invocation, or a
purge. -/
inductive Ev (ε ρ : Type) where
  | provide (path : JSPath) (options : Bool) (cb : Nat)
  | provideSync (path : JSPath) (options : Bool) (outcome : Except (JSErr ε) (Option ρ))
  | complete (i : Nat) (err : Option (JSErr ε)) (res : Option ρ)
  | purge (what : PurgeArg)
deriving DecidableEq, Repr

def CacheBackend.step {ε ρ : Type} (s : CacheState ε ρ) : Ev ε ρ → CacheState ε ρ × Out ε ρ
  | .provide path options cb => CacheBackend.provide s path options cb
  | .provideSync path options outcome => CacheBackend.provideSync s path options outcome
  | .complete i err res => CacheBackend.complete s i err res
  | .purge what => (CacheBackend.purge s what, ⟨[], [], none⟩)

/-- State after a sequence of events. -/
def CacheBackend.runS {ε ρ : Type} (s : CacheState ε ρ) : List (Ev ε ρ) → CacheState ε ρ
  | [] => s
  | ev :: evs => CacheBackend.runS (CacheBackend.step s ev).1 evs

/-- Outputs of a sequence of events, one per event. -/
def CacheBackend.runOuts {ε ρ : Type} (s : CacheState ε ρ) : List (Ev ε ρ) → List (Out ε ρ)
  | [] => []
  | ev :: evs => (CacheBackend.step s ev).2 :: CacheBackend.runOuts (CacheBackend.step s ev).1 evs

def allDeliveries {ε ρ : Type} (os : List (Out ε ρ)) : List (Delivery ε ρ) :=
  (os.map Out.deliveries).flatten

def allCalls {ε ρ : Type} (os : List (Out ε ρ)) : List ProvCall :=
  (os.map Out.calls).flatten

/-- Is this event a synchronous call? -/
def Ev.isSyncEv {ε ρ : Type} : Ev ε ρ → Bool
  | .provideSync _ _ _ => true
  | _ => false

/-- Is this event a no-options lookup (provide or provideSync) of key k? -/
def Ev.isLookupOf {ε ρ : Type} (k : String) : Ev ε ρ → Bool
  | .provide (.str p) false _ => p = k
  | .provideSync (.str p) false _ => p = k
  | _ => false

/-- Expected output of a no-options lookup replaying a cached error e:
the async continuation receives (e, undefined), the sync caller gets e
thrown, and the underlying provider is never invoked. -/
def errHitOut {ε ρ : Type} (e : JSErr ε) : Ev ε ρ → Out ε ρ
  | .provide _ _ cb => ⟨[(cb, some e, none)], [], none⟩
  | .provideSync _ _ _ => ⟨[], [], some (.error e)⟩
  | _ => ⟨[], [], none⟩

/-- OperationMergerBackend state (lines 37-47): the callback-array heap,
the _activeAsyncOperations registry and the outstanding invocations; no
cache. -/
structure MergerState where
  arrays : List (List Nat)
  active : List (String × Nat)
  pendingOps : List (String × Nat)
deriving DecidableEq, Repr

def MergerState.init : MergerState := ⟨[], [], []⟩

/-- OperationMergerBackend.provide (lines 49-78). Unlike
CacheBackend.provide, the options bypass of line 55 comes before the
string check of line 63, so a non-string path with options present is
handed to the provider unchecked. -/
def MergerBackend.provide {ε ρ : Type} (s : MergerState) (path : JSPath)
    (options : Bool) (cb : Nat) : MergerState × Out ε ρ :=
  if options then
    (s, ⟨[], [.asyncBypass path], none⟩)
  else
    match path with
    | .nonStr => (s, ⟨[(cb, some .typeErr, none)], [], none⟩)
    | .str p =>
      match alookup s.active p with
      | some aid =>
        ({ s with arrays := setArr s.arrays aid (getArr s.arrays aid ++ [cb]) },
         ⟨[], [], none⟩)
      | none =>
        (⟨s.arrays ++ [[cb]], s.active ++ [(p, s.arrays.length)],
          s.pendingOps ++ [(p, s.arrays.length)]⟩,
         ⟨[], [.asyncCall p], none⟩)

/-- Completion of the i-th outstanding merger invocation: the closure of
lines 73-76 deletes the registry entry and runs the captured array. -/
def MergerBackend.complete {ε ρ : Type} (s : MergerState) (i : Nat)
    (err : Option (JSErr ε)) (res : Option ρ) : MergerState × Out ε ρ :=
  match s.pendingOps.get? i with
  | none => (s, ⟨[], [], none⟩)
  | some pa =>
    (⟨setArr s.arrays pa.2 (runCallbacksArr (getArr s.arrays pa.2) err res).2,
      aerase s.active pa.1, s.pendingOps.eraseIdx i⟩,
     ⟨(runCallbacksArr (getArr s.arrays pa.2) err res).1, [], none⟩)

/-- An event hitting an OperationMergerBackend on its async side. -/
inductive MEv (ε ρ : Type) where
  | provide (path : JSPath) (options : Bool) (cb : Nat)
  | complete (i : Nat) (err : Option (JSErr ε)) (res : Option ρ)
deriving DecidableEq, Repr

def MergerBackend.step {ε ρ : Type} (s : MergerState) : MEv ε ρ → MergerState × Out ε ρ
  | .provide path options cb => MergerBackend.provide s path options cb
  | .complete i err res => MergerBackend.complete s i err res

def MergerBackend.runS {ε ρ : Type} (s : MergerState) : List (MEv ε ρ) → MergerState
  | [] => s
  | ev :: evs => MergerBackend.runS (MergerBackend.step s ev).1 evs

def MergerBackend.runOuts {ε ρ : Type} (s : MergerState) : List (MEv ε ρ) → List (Out ε ρ)
  | [] => []
  | ev :: evs =>
    (MergerBackend.step s ev).2 :: MergerBackend.runOuts (MergerBackend.step s ev).1 evs

/-- Errors of the synthesized readJson (facade constructor lines
354-368): the readFile error, the Error("No file content"), or the JSON
parse error. -/
inductive RJErr (ε π : Type) where
  | readErr (e : ε)
  | emptyContent
  | parseErr (p : π)
deriving DecidableEq, Repr

/-- The asynchronous readJson synthesized when the provider lacks one
(lines 354-368), as a function of the readFile outcome for the path and
of JSON.parse (a pure function returning a parse error or a value). The
buffer is a byte list; none models an absent (undefined or null)
buffer, which line 358 treats like a zero-length one. -/
def readJsonSynth {ε π ρ : Type} (rf : Except ε (Option (List Nat)))
    (parse : List Nat → Except π ρ) : Except (RJErr ε π) ρ :=
  match rf with
  | .error e => .error (.readErr e)
  | .ok none => .error .emptyContent
  | .ok (some buf) =>
    if buf.length = 0 then .error .emptyContent
    else
      match parse buf with
      | .error p => .error (.parseErr p)
      | .ok d => .ok d

/-! ## General lemmas about the embedded operations -/

theorem runCallbacksArr_fst {ε ρ : Type} (cbs : List Nat) (err : Option (JSErr ε))
    (res : Option ρ) : (runCallbacksArr cbs err res).1 = cbs.map (fun c => (c, err, res)) := by
  unfold runCallbacksArr
  split <;> rfl

theorem runOuts_append {ε ρ : Type} (s : CacheState ε ρ) (l1 l2 : List (Ev ε ρ)) :
    CacheBackend.runOuts s (l1 ++ l2) =
      CacheBackend.runOuts s l1 ++ CacheBackend.runOuts (CacheBackend.runS s l1) l2 := by
  induction l1 generalizing s with
  | nil => rfl
  | cons ev evs ih =>
    show (CacheBackend.step s ev).2 ::
        CacheBackend.runOuts (CacheBackend.step s ev).1 (evs ++ l2) = _
    rw [ih]
    rfl

theorem runS_append {ε ρ : Type} (s : CacheState ε ρ) (l1 l2 : List (Ev ε ρ)) :
    CacheBackend.runS s (l1 ++ l2) = CacheBackend.runS (CacheBackend.runS s l1) l2 := by
  induction l1 generalizing s with
  | nil => rfl
  | cons ev evs ih =>
    show CacheBackend.runS (CacheBackend.step s ev).1 (evs ++ l2) = _
    rw [ih]
    rfl

theorem allCalls_append {ε ρ : Type} (os1 os2 : List (Out ε ρ)) :
    allCalls (os1 ++ os2) = allCalls os1 ++ allCalls os2 := by
  simp [allCalls, List.map_append, List.flatten_append]

theorem allDeliveries_append {ε ρ : Type} (os1 os2 : List (Out ε ρ)) :
    allDeliveries (os1 ++ os2) = allDeliveries os1 ++ allDeliveries os2 := by
  simp [allDeliveries, List.map_append, List.flatten_append]

theorem allCalls_cons {ε ρ : Type} (o : Out ε ρ) (os : List (Out ε ρ)) :
    allCalls (o :: os) = o.calls ++ allCalls os := rfl

theorem allDeliveries_cons {ε ρ : Type} (o : Out ε ρ) (os : List (Out ε ρ)) :
    allDeliveries (o :: os) = o.deliveries ++ allDeliveries os := rfl

theorem allCalls_quiet {ε ρ : Type} (n : Nat) :
    allCalls (List.replicate n (⟨[], [], none⟩ : Out ε ρ)) = [] := by
  induction n with
  | zero => rfl
  | succ m ih => simpa [List.replicate, allCalls_cons] using ih

theorem allDeliveries_quiet {ε ρ : Type} (n : Nat) :
    allDeliveries (List.replicate n (⟨[], [], none⟩ : Out ε ρ)) = [] := by
  induction n with
  | zero => rfl
  | succ m ih => simpa [List.replicate, allDeliveries_cons] using ih

/-! ## C4: purge clears the whole cache whatever its argument is -/

/-- C4: for every CachingBackend state, purge with any argument shape -
absent, one key string, or a collection of keys - empties the whole LRU
cache: afterwards no key has a cached outcome. -/
theorem claim4_purge_always_clears_all {ε ρ : Type} (s : CacheState ε ρ) (what : PurgeArg) :
    (CacheBackend.purge s what).lru.list = [] ∧
    ∀ k, (CacheBackend.purge s what).lru.peek k = none := by
  cases what <;> exact ⟨rfl, fun _ => rfl⟩

/-! ## C5: purgeParent on a collection clears everything, not selectively -/

/-- C5 counterexample: on a backend caching entries for /a, /a/b and
/a/b/c, purgeParent(["/a/b/c"]) also removes the entries for /a/b/c
itself and for /a, contradicting the claim that they stay intact. -/
theorem claim5_counterexample :
    (CacheBackend.purgeParent
        (⟨⟨1000, [("/a", ⟨none, some 1⟩), ("/a/b", ⟨none, some 2⟩),
            ("/a/b/c", ⟨none, some 3⟩)]⟩, [], [], []⟩ : CacheState Nat Nat)
        (.coll ["/a/b/c"])).lru.peek "/a/b/c" = none ∧
    (CacheBackend.purgeParent
        (⟨⟨1000, [("/a", ⟨none, some 1⟩), ("/a/b", ⟨none, some 2⟩),
            ("/a/b/c", ⟨none, some 3⟩)]⟩, [], [], []⟩ : CacheState Nat Nat)
        (.coll ["/a/b/c"])).lru.peek "/a" = none := ⟨rfl, rfl⟩

/-- C5 amended: purgeParent(["/a/b/c"]) does invalidate the cached entry
for /a/b, but it clears the entire LRU cache, so the entries for /a and
for /a/b/c are invalidated as well. -/
theorem claim5_amended_purgeParent_clears_all {ε ρ : Type} (s : CacheState ε ρ) :
    (CacheBackend.purgeParent s (.coll ["/a/b/c"])).lru.peek "/a/b" = none ∧
    (CacheBackend.purgeParent s (.coll ["/a/b/c"])).lru.peek "/a" = none ∧
    (CacheBackend.purgeParent s (.coll ["/a/b/c"])).lru.peek "/a/b/c" = none ∧
    (CacheBackend.purgeParent s (.coll ["/a/b/c"])).lru.list = [] :=
  ⟨rfl, rfl, rfl, rfl⟩

/-! ## C2: a sync call stealing a single queued continuation leads to a
double delivery when the async provider later completes -/

/-- C2, evaluated at the failing input: one async provide for key k is in
flight with exactly one queued continuation (callback 0); a sync call for
k steals it and delivers the sync result 5; when the async provider later
completes with 7, runCallbacks runs the captured array again - its
single-callback fast path (line 24) never cleared it - so callback 0 is
invoked a second time, now with the async result. -/
theorem claim2_sync_steal_double_delivery :
    CacheBackend.runOuts (CacheState.init Nat Nat 10)
        [.provide (.str "k") false 0, .provideSync (.str "k") false (.ok (some 5)),
         .complete 0 none (some 7)] =
      [⟨[], [.asyncCall "k"], none⟩,
       ⟨[(0, none, some 5)], [.syncCall "k"], some (.ok (some 5))⟩,
       ⟨[(0, none, some 7)], [], none⟩] ∧
    allDeliveries (CacheBackend.runOuts (CacheState.init Nat Nat 10)
        [.provide (.str "k") false 0, .provideSync (.str "k") false (.ok (some 5)),
         .complete 0 none (some 7)]) = [(0, none, some 5), (0, none, some 7)] :=
  ⟨rfl, rfl⟩

/-! ## C3: a racing sync call does execute a second underlying provider
invocation -/

/-- C3 counterexample: issue an async provide for "k" (the async provider
invocation is now outstanding: pendingOps is nonempty and no complete
event has fired), then a sync call for "k": the backend executes the
underlying sync provider as well, so two underlying provider invocations
run for the same key, refuting the claimed at-most-one invariant. -/
theorem claim3_counterexample :
    (CacheBackend.runS (CacheState.init Nat Nat 10)
        [.provide (.str "k") false 0]).pendingOps = [("k", 0)] ∧
    allCalls (CacheBackend.runOuts (CacheState.init Nat Nat 10)
        [.provide (.str "k") false 0, .provideSync (.str "k") false (.ok (some 1))]) =
      [.asyncCall "k", .syncCall "k"] := ⟨rfl, rfl⟩

/-! ## C7: error replay stops at eviction, not only at purge -/

/-- C7 counterexample: capacity 1; the provider fails for "k" with error 9
and the error is cached and replayed is not even reached - after a
successful operation on "j" evicts the entry, a purge-free lookup of "k"
invokes the underlying provider again (fifth output) instead of replaying
error 9. -/
theorem claim7_counterexample :
    CacheBackend.runOuts (CacheState.init Nat Nat 1)
        [.provide (.str "k") false 0, .complete 0 (some (.provErr 9)) none,
         .provide (.str "j") false 1, .complete 0 none (some 5),
         .provide (.str "k") false 2] =
      [⟨[], [.asyncCall "k"], none⟩,
       ⟨[(0, some (.provErr 9), none)], [], none⟩,
       ⟨[], [.asyncCall "j"], none⟩,
       ⟨[(1, none, some 5)], [], none⟩,
       ⟨[], [.asyncCall "k"], none⟩] := rfl

/-! ## C9: a cache hit invokes the continuation re-entrantly -/

/-- C9 counterexample: with the outcome for "k" cached, provide invokes
the continuation directly, during the call and before returning (the
delivery is part of the provide step itself, nonempty below), and
schedules nothing for any later asynchronous completion (pendingOps
stays empty), refuting the claim that delivery happens via the
asynchronous completion channel rather than re-entrantly. -/
theorem claim9_counterexample :
    (CacheBackend.provide (⟨⟨2, [("k", ⟨none, some 5⟩)]⟩, [], [], []⟩ : CacheState Nat Nat)
        (.str "k") false 0).2.deliveries = [(0, none, some 5)] ∧
    (CacheBackend.provide (⟨⟨2, [("k", ⟨none, some 5⟩)]⟩, [], [], []⟩ : CacheState Nat Nat)
        (.str "k") false 0).2.deliveries ≠ [] ∧
    (CacheBackend.provide (⟨⟨2, [("k", ⟨none, some 5⟩)]⟩, [], [], []⟩ : CacheState Nat Nat)
        (.str "k") false 0).1.pendingOps = [] := ⟨rfl, by decide, rfl⟩

/-! ## C10: type validation versus options bypass across the backends -/

/-- C10: in CacheBackend both provide and provideSync check that the path
is a string before the options bypass, so a non-string path yields the
TypeError (delivered to the continuation, or thrown from provideSync)
even when options are present, the state is untouched and the underlying
provider is never invoked; in OperationMergerBackend the options bypass
comes first, so an async call with options passes the non-string path
straight to the provider. -/
theorem claim10_type_check_before_bypass {ε ρ : Type} (s : CacheState ε ρ) (options : Bool)
    (cb : Nat) (outcome : Except (JSErr ε) (Option ρ)) (m : MergerState) (cb2 : Nat) :
    CacheBackend.provide s .nonStr options cb =
      (s, ⟨[(cb, some .typeErr, none)], [], none⟩) ∧
    CacheBackend.provideSync s .nonStr options outcome =
      (s, ⟨[], [], some (.error .typeErr)⟩) ∧
    (MergerBackend.provide m .nonStr true cb2 : MergerState × Out ε ρ) =
      (m, ⟨[], [.asyncBypass .nonStr], none⟩) := ⟨rfl, rfl, rfl⟩

/-! ## C8: the synthesized readJson -/

/-- C8: the synthesized asynchronous readJson fails with the readFile
error when the read fails, fails with the distinct empty-content error
when the buffer is absent or has zero length, fails with the parse error
when JSON parsing fails, and otherwise delivers the parsed value. -/
theorem claim8_readJson_synthesis {ε π ρ : Type} (parse : List Nat → Except π ρ) :
    (∀ e : ε, readJsonSynth (.error e) parse = .error (.readErr e)) ∧
    (readJsonSynth (Except.ok (none : Option (List Nat)) : Except ε (Option (List Nat)))
        parse = .error .emptyContent) ∧
    (∀ buf : List Nat, buf.length = 0 →
      readJsonSynth (Except.ok (some buf) : Except ε (Option (List Nat))) parse =
        .error .emptyContent) ∧
    (∀ (buf : List Nat) (p : π), buf.length ≠ 0 → parse buf = .error p →
      readJsonSynth (Except.ok (some buf) : Except ε (Option (List Nat))) parse =
        .error (.parseErr p)) ∧
    (∀ (buf : List Nat) (d : ρ), buf.length ≠ 0 → parse buf = .ok d →
      readJsonSynth (Except.ok (some buf) : Except ε (Option (List Nat))) parse = .ok d) := by
  refine ⟨fun e => rfl, rfl, fun buf h => ?_, fun buf p h hp => ?_, fun buf d h hp => ?_⟩
  · simp [readJsonSynth, h]
  · simp [readJsonSynth, h, hp]
  · simp [readJsonSynth, h, hp]

/-- Witness for C8 at a concrete parser and concrete buffers. -/
theorem claim8_witness :
    readJsonSynth (Except.error 2 : Except Nat (Option (List Nat)))
        (fun buf => if buf.length = 1 then Except.ok 7 else Except.error 3) =
      .error (.readErr 2) ∧
    readJsonSynth (Except.ok (some ([] : List Nat)) : Except Nat (Option (List Nat)))
        (fun buf => if buf.length = 1 then Except.ok 7 else Except.error 3) =
      .error .emptyContent ∧
    readJsonSynth (Except.ok (some [65]) : Except Nat (Option (List Nat)))
        (fun buf => if buf.length = 1 then Except.ok 7 else Except.error 3) = .ok 7 ∧
    readJsonSynth (Except.ok (some [65, 66]) : Except Nat (Option (List Nat)))
        (fun buf => if buf.length = 1 then Except.ok 7 else Except.error 3) =
      .error (.parseErr 3) :=
  ⟨(claim8_readJson_synthesis (fun buf => if buf.length = 1 then Except.ok 7
      else Except.error 3)).1 2,
   (claim8_readJson_synthesis (fun buf => if buf.length = 1 then Except.ok 7
      else Except.error 3)).2.2.1 [] rfl,
   (claim8_readJson_synthesis (fun buf => if buf.length = 1 then Except.ok 7
      else Except.error 3)).2.2.2.2 [65] 7 (by decide) rfl,
   (claim8_readJson_synthesis (fun buf => if buf.length = 1 then Except.ok 7
      else Except.error 3)).2.2.2.1 [65, 66] 3 (by decide) rfl⟩

/-! ## C1: concurrent async calls for one key are merged, with FIFO
identical delivery -/

theorem runOuts_cons {ε ρ : Type} (s : CacheState ε ρ) (ev : Ev ε ρ) (evs : List (Ev ε ρ)) :
    CacheBackend.runOuts s (ev :: evs) =
      (CacheBackend.step s ev).2 :: CacheBackend.runOuts (CacheBackend.step s ev).1 evs := rfl

theorem runOuts_nil {ε ρ : Type} (s : CacheState ε ρ) : CacheBackend.runOuts s [] = [] := rfl

theorem cache_provide_fresh {ε ρ : Type} (cap : Nat) (k : String) (cb : Nat) :
    CacheBackend.step (CacheState.init ε ρ cap) (.provide (.str k) false cb) =
      (⟨⟨cap, []⟩, [[cb]], [(k, 0)], [(k, 0)]⟩, ⟨[], [.asyncCall k], none⟩) := rfl

theorem cache_provide_joins {ε ρ : Type} (cap : Nat) (k : String) (acc : List Nat) (cb : Nat) :
    CacheBackend.step (⟨⟨cap, []⟩, [acc], [(k, 0)], [(k, 0)]⟩ : CacheState ε ρ)
        (.provide (.str k) false cb) =
      (⟨⟨cap, []⟩, [acc ++ [cb]], [(k, 0)], [(k, 0)]⟩, ⟨[], [], none⟩) := by
  simp [CacheBackend.step, CacheBackend.provide, LRUCache.get, afind, alookup, getArr, setArr]

theorem cache_joins_aux {ε ρ : Type} (cap : Nat) (k : String) (cbs acc : List Nat) :
    CacheBackend.runS (⟨⟨cap, []⟩, [acc], [(k, 0)], [(k, 0)]⟩ : CacheState ε ρ)
        (cbs.map fun c => Ev.provide (.str k) false c) =
      ⟨⟨cap, []⟩, [acc ++ cbs], [(k, 0)], [(k, 0)]⟩ ∧
    CacheBackend.runOuts (⟨⟨cap, []⟩, [acc], [(k, 0)], [(k, 0)]⟩ : CacheState ε ρ)
        (cbs.map fun c => Ev.provide (.str k) false c) =
      List.replicate cbs.length (⟨[], [], none⟩ : Out ε ρ) := by
  induction cbs generalizing acc with
  | nil => exact ⟨by simp [CacheBackend.runS], by simp [CacheBackend.runOuts]⟩
  | cons c cs ih =>
    constructor
    · show CacheBackend.runS (CacheBackend.step _ _).1 _ = _
      rw [cache_provide_joins]
      show CacheBackend.runS (⟨⟨cap, []⟩, [acc ++ [c]], [(k, 0)], [(k, 0)]⟩ : CacheState ε ρ) _ = _
      rw [(ih (acc ++ [c])).1, List.append_assoc]
      rfl
    · show (CacheBackend.step _ _).2 :: CacheBackend.runOuts (CacheBackend.step _ _).1 _ = _
      rw [cache_provide_joins]
      show (⟨[], [], none⟩ : Out ε ρ) ::
        CacheBackend.runOuts (⟨⟨cap, []⟩, [acc ++ [c]], [(k, 0)], [(k, 0)]⟩ : CacheState ε ρ) _ = _
      rw [(ih (acc ++ [c])).2]
      rfl

theorem cache_joins_runS {ε ρ : Type} (cap : Nat) (k : String) (cbs acc : List Nat) :
    CacheBackend.runS (⟨⟨cap, []⟩, [acc], [(k, 0)], [(k, 0)]⟩ : CacheState ε ρ)
        (cbs.map fun c => Ev.provide (.str k) false c) =
      ⟨⟨cap, []⟩, [acc ++ cbs], [(k, 0)], [(k, 0)]⟩ := (cache_joins_aux cap k cbs acc).1

theorem cache_joins_runOuts {ε ρ : Type} (cap : Nat) (k : String) (cbs acc : List Nat) :
    CacheBackend.runOuts (⟨⟨cap, []⟩, [acc], [(k, 0)], [(k, 0)]⟩ : CacheState ε ρ)
        (cbs.map fun c => Ev.provide (.str k) false c) =
      List.replicate cbs.length (⟨[], [], none⟩ : Out ε ρ) := (cache_joins_aux cap k cbs acc).2

theorem cache_complete_out {ε ρ : Type} (cap : Nat) (k : String) (cbs : List Nat)
    (err : Option (JSErr ε)) (res : Option ρ) :
    (CacheBackend.step (⟨⟨cap, []⟩, [cbs], [(k, 0)], [(k, 0)]⟩ : CacheState ε ρ)
        (.complete 0 err res)).2 = ⟨cbs.map (fun c => (c, err, res)), [], none⟩ := by
  show (⟨(runCallbacksArr (getArr [cbs] 0) err res).1, [], none⟩ : Out ε ρ) = _
  rw [show getArr [cbs] 0 = cbs from rfl, runCallbacksArr_fst]

theorem mergerRunOuts_cons {ε ρ : Type} (s : MergerState) (ev : MEv ε ρ) (evs : List (MEv ε ρ)) :
    MergerBackend.runOuts s (ev :: evs) =
      (MergerBackend.step s ev).2 :: MergerBackend.runOuts (MergerBackend.step s ev).1 evs := rfl

theorem mergerRunOuts_nil {ε ρ : Type} (s : MergerState) :
    MergerBackend.runOuts s ([] : List (MEv ε ρ)) = [] := rfl

theorem mergerRunOuts_append {ε ρ : Type} (s : MergerState) (l1 l2 : List (MEv ε ρ)) :
    MergerBackend.runOuts s (l1 ++ l2) =
      MergerBackend.runOuts s l1 ++ MergerBackend.runOuts (MergerBackend.runS s l1) l2 := by
  induction l1 generalizing s with
  | nil => rfl
  | cons ev evs ih =>
    show (MergerBackend.step s ev).2 ::
        MergerBackend.runOuts (MergerBackend.step s ev).1 (evs ++ l2) = _
    rw [ih]
    rfl

theorem merger_provide_fresh {ε ρ : Type} (k : String) (cb : Nat) :
    MergerBackend.step MergerState.init (.provide (.str k) false cb : MEv ε ρ) =
      (⟨[[cb]], [(k, 0)], [(k, 0)]⟩, ⟨[], [.asyncCall k], none⟩) := rfl

theorem merger_provide_joins {ε ρ : Type} (k : String) (acc : List Nat) (cb : Nat) :
    MergerBackend.step (⟨[acc], [(k, 0)], [(k, 0)]⟩ : MergerState)
        (.provide (.str k) false cb : MEv ε ρ) =
      (⟨[acc ++ [cb]], [(k, 0)], [(k, 0)]⟩, ⟨[], [], none⟩) := by
  simp [MergerBackend.step, MergerBackend.provide, alookup, getArr, setArr]

theorem merger_joins_aux {ε ρ : Type} (k : String) (cbs acc : List Nat) :
    MergerBackend.runS (⟨[acc], [(k, 0)], [(k, 0)]⟩ : MergerState)
        (cbs.map fun c => (MEv.provide (.str k) false c : MEv ε ρ)) =
      ⟨[acc ++ cbs], [(k, 0)], [(k, 0)]⟩ ∧
    MergerBackend.runOuts (⟨[acc], [(k, 0)], [(k, 0)]⟩ : MergerState)
        (cbs.map fun c => (MEv.provide (.str k) false c : MEv ε ρ)) =
      List.replicate cbs.length (⟨[], [], none⟩ : Out ε ρ) := by
  induction cbs generalizing acc with
  | nil => exact ⟨by simp [MergerBackend.runS], by simp [MergerBackend.runOuts]⟩
  | cons c cs ih =>
    constructor
    · show MergerBackend.runS (MergerBackend.step _ _).1 _ = _
      rw [merger_provide_joins]
      show MergerBackend.runS (⟨[acc ++ [c]], [(k, 0)], [(k, 0)]⟩ : MergerState) _ = _
      rw [(ih (acc ++ [c])).1, List.append_assoc]
      rfl
    · show (MergerBackend.step _ _).2 :: MergerBackend.runOuts (MergerBackend.step _ _).1 _ = _
      rw [merger_provide_joins]
      show (⟨[], [], none⟩ : Out ε ρ) ::
        MergerBackend.runOuts (⟨[acc ++ [c]], [(k, 0)], [(k, 0)]⟩ : MergerState) _ = _
      rw [(ih (acc ++ [c])).2]
      rfl

theorem merger_joins_runS {ε ρ : Type} (k : String) (cbs acc : List Nat) :
    MergerBackend.runS (⟨[acc], [(k, 0)], [(k, 0)]⟩ : MergerState)
        (cbs.map fun c => (MEv.provide (.str k) false c : MEv ε ρ)) =
      ⟨[acc ++ cbs], [(k, 0)], [(k, 0)]⟩ := (merger_joins_aux k cbs acc).1

theorem merger_joins_runOuts {ε ρ : Type} (k : String) (cbs acc : List Nat) :
    MergerBackend.runOuts (⟨[acc], [(k, 0)], [(k, 0)]⟩ : MergerState)
        (cbs.map fun c => (MEv.provide (.str k) false c : MEv ε ρ)) =
      List.replicate cbs.length (⟨[], [], none⟩ : Out ε ρ) := (merger_joins_aux k cbs acc).2

theorem merger_complete_out {ε ρ : Type} (k : String) (cbs : List Nat)
    (err : Option (JSErr ε)) (res : Option ρ) :
    (MergerBackend.step (⟨[cbs], [(k, 0)], [(k, 0)]⟩ : MergerState)
        (.complete 0 err res : MEv ε ρ)).2 = ⟨cbs.map (fun c => (c, err, res)), [], none⟩ := by
  show (⟨(runCallbacksArr (getArr [cbs] 0) err res).1, [], none⟩ : Out ε ρ) = _
  rw [show getArr [cbs] 0 = cbs from rfl, runCallbacksArr_fst]

/-- C1: from a fresh backend, issuing one or more concurrent async
provide calls for key k with no options before the first completes
causes exactly one underlying async provider invocation for k, and the
completion delivers the identical (err, result) pair to every queued
continuation in FIFO registration order - in both CacheBackend and
OperationMergerBackend. -/
theorem claim1_merge_correctness {ε ρ : Type} (cap : Nat) (k : String) (cb : Nat)
    (rest : List Nat) (err : Option (JSErr ε)) (res : Option ρ) :
    (allCalls (CacheBackend.runOuts (CacheState.init ε ρ cap)
        (((cb :: rest).map fun c => Ev.provide (.str k) false c) ++
          [Ev.complete 0 err res])) = [.asyncCall k] ∧
     allDeliveries (CacheBackend.runOuts (CacheState.init ε ρ cap)
        (((cb :: rest).map fun c => Ev.provide (.str k) false c) ++
          [Ev.complete 0 err res])) = (cb :: rest).map fun c => (c, err, res)) ∧
    (allCalls (MergerBackend.runOuts MergerState.init
        (((cb :: rest).map fun c => (MEv.provide (.str k) false c : MEv ε ρ)) ++
          [MEv.complete 0 err res])) = [.asyncCall k] ∧
     allDeliveries (MergerBackend.runOuts MergerState.init
        (((cb :: rest).map fun c => (MEv.provide (.str k) false c : MEv ε ρ)) ++
          [MEv.complete 0 err res])) = (cb :: rest).map fun c => (c, err, res)) := by
  have hc : CacheBackend.runOuts (CacheState.init ε ρ cap)
      (((cb :: rest).map fun c => Ev.provide (.str k) false c) ++ [Ev.complete 0 err res]) =
        (⟨[], [.asyncCall k], none⟩ : Out ε ρ) ::
          (List.replicate rest.length ⟨[], [], none⟩ ++
            [⟨([cb] ++ rest).map (fun c => (c, err, res)), [], none⟩]) := by
    rw [List.map_cons, List.cons_append, runOuts_cons, cache_provide_fresh]
    show _ :: CacheBackend.runOuts (⟨⟨cap, []⟩, [[cb]], [(k, 0)], [(k, 0)]⟩ : CacheState ε ρ) _ = _
    rw [runOuts_append, cache_joins_runS, cache_joins_runOuts, runOuts_cons, runOuts_nil,
      cache_complete_out]
  have hm : MergerBackend.runOuts MergerState.init
      (((cb :: rest).map fun c => (MEv.provide (.str k) false c : MEv ε ρ)) ++
        [MEv.complete 0 err res]) =
        (⟨[], [.asyncCall k], none⟩ : Out ε ρ) ::
          (List.replicate rest.length ⟨[], [], none⟩ ++
            [⟨([cb] ++ rest).map (fun c => (c, err, res)), [], none⟩]) := by
    rw [List.map_cons, List.cons_append, mergerRunOuts_cons, merger_provide_fresh]
    show _ :: MergerBackend.runOuts (⟨[[cb]], [(k, 0)], [(k, 0)]⟩ : MergerState) _ = _
    rw [mergerRunOuts_append, merger_joins_runS, merger_joins_runOuts, mergerRunOuts_cons,
      mergerRunOuts_nil, merger_complete_out]
  rw [hc, hm]
  refine ⟨⟨?_, ?_⟩, ⟨?_, ?_⟩⟩ <;>
    simp [allCalls_cons, allCalls_append, allCalls_quiet, allDeliveries_cons,
      allDeliveries_append, allDeliveries_quiet, allCalls, allDeliveries]

/-! ## C6: LRU invariants - bounded size, eviction of the LRU entry,
promotion to MRU on get and put -/

theorem afind_some_lruRemove_length {ε ρ : Type} :
    ∀ {l : List (String × Entry ε ρ)} {k : String} {v : Entry ε ρ},
      afind l k = some v → (lruRemove l k).length + 1 = l.length := by
  intro l
  induction l with
  | nil => intro k v h; cases h
  | cons p rest ih =>
    intro k v h
    by_cases hp : p.1 = k
    · simp [lruRemove, hp]
    · simp only [afind, if_neg hp] at h
      simp only [lruRemove, if_neg hp, List.length_cons]
      rw [← ih h]

theorem lru_get_cap {ε ρ : Type} (c : LRUCache ε ρ) (k : String) :
    ((c.get k).2).cap = c.cap := by
  unfold LRUCache.get
  cases afind c.list k <;> rfl

theorem lru_get_size {ε ρ : Type} (c : LRUCache ε ρ) (k : String) :
    ((c.get k).2).size = c.size := by
  unfold LRUCache.get
  cases hx : afind c.list k with
  | none => rfl
  | some v =>
    show (lruRemove c.list k ++ [(k, v)]).length = c.list.length
    rw [List.length_append, List.length_cons, List.length_nil]
    exact afind_some_lruRemove_length hx

theorem lru_put_cap {ε ρ : Type} (c : LRUCache ε ρ) (k : String) (v : Entry ε ρ) :
    (c.put k v).cap = c.cap := by
  unfold LRUCache.put
  split
  · rfl
  · split <;> rfl

theorem lru_put_size_le {ε ρ : Type} (c : LRUCache ε ρ) (k : String) (v : Entry ε ρ)
    (h1 : 1 ≤ c.cap) (h2 : c.size ≤ c.cap) : (c.put k v).size ≤ c.cap := by
  unfold LRUCache.size at h2 ⊢
  unfold LRUCache.put
  split
  case isTrue hsome =>
    obtain ⟨w, hw⟩ := Option.isSome_iff_exists.mp hsome
    have hl := afind_some_lruRemove_length hw
    show (lruRemove c.list k ++ [(k, v)]).length ≤ c.cap
    rw [List.length_append, List.length_cons, List.length_nil]
    omega
  case isFalse =>
    split
    case isTrue hcap =>
      show (c.list.drop 1 ++ [(k, v)]).length ≤ c.cap
      rw [List.length_append, List.length_cons, List.length_nil, List.length_drop]
      omega
    case isFalse hcap =>
      show (c.list ++ [(k, v)]).length ≤ c.cap
      rw [List.length_append, List.length_cons, List.length_nil]
      omega

theorem lru_apply_size_le {ε ρ : Type} (ops : List (LOp ε ρ)) :
    ∀ c : LRUCache ε ρ, 1 ≤ c.cap → c.size ≤ c.cap → (c.apply ops).size ≤ c.cap := by
  induction ops with
  | nil => intro c _ h2; exact h2
  | cons op ops ih =>
    intro c h1 h2
    cases op with
    | get k =>
      have h3 := ih ((c.get k).2) (by rw [lru_get_cap]; exact h1)
        (by rw [lru_get_size, lru_get_cap]; exact h2)
      show (LRUCache.apply (c.get k).2 ops).size ≤ c.cap
      rw [← lru_get_cap c k]
      exact h3
    | put k v =>
      have h3 := ih (c.put k v) (by rw [lru_put_cap]; exact h1)
        (by rw [lru_put_cap]; exact lru_put_size_le c k v h1 h2)
      show (LRUCache.apply (c.put k v) ops).size ≤ c.cap
      rw [← lru_put_cap c k v]
      exact h3

/-- C6: for capacity C = c0+1 ≥ 1: (1) any sequence of get and put
operations from the empty cache keeps the entry count at most C; (2) a
put of a fresh key while C entries are present first deletes the head -
the least-recently-touched entry - and appends the new entry; (3) get on
a present key returns its value and moves its entry to the
most-recently-used (tail) position; (4) put always leaves the touched
entry at the most-recently-used position. -/
theorem claim6_lru_invariants {ε ρ : Type} (c0 : Nat) :
    (∀ ops : List (LOp ε ρ), ((LRUCache.empty ε ρ (c0 + 1)).apply ops).size ≤ c0 + 1) ∧
    (∀ (c : LRUCache ε ρ) (k : String) (v : Entry ε ρ), c.cap = c0 + 1 →
      c.size = c0 + 1 → afind c.list k = none →
      (c.put k v).list = c.list.drop 1 ++ [(k, v)]) ∧
    (∀ (c : LRUCache ε ρ) (k : String) (v : Entry ε ρ), afind c.list k = some v →
      (c.get k).1 = some v ∧ ∃ pre, ((c.get k).2).list = pre ++ [(k, v)]) ∧
    (∀ (c : LRUCache ε ρ) (k : String) (v : Entry ε ρ),
      ∃ pre, (c.put k v).list = pre ++ [(k, v)]) := by
  refine ⟨?_, ?_, ?_, ?_⟩
  · intro ops
    exact lru_apply_size_le ops (LRUCache.empty ε ρ (c0 + 1))
      (show 1 ≤ c0 + 1 by omega) (show (0 : Nat) ≤ c0 + 1 by omega)
  · intro c k v hcap hsize hfresh
    unfold LRUCache.put
    rw [hfresh]
    have hfull : c.cap ≤ c.list.length := by
      unfold LRUCache.size at hsize
      omega
    simp [hfull]
  · intro c k v h
    unfold LRUCache.get
    rw [h]
    exact ⟨rfl, ⟨lruRemove c.list k, rfl⟩⟩
  · intro c k v
    unfold LRUCache.put
    split
    · exact ⟨_, rfl⟩
    · split
      · exact ⟨_, rfl⟩
      · exact ⟨_, rfl⟩

/-- Witness for C6 at capacity 1 with concrete operations. -/
theorem claim6_witness :
    ((LRUCache.empty Nat Nat 1).apply
        [.put "a" ⟨none, some 1⟩, .put "b" ⟨none, some 2⟩, .get "b"]).size ≤ 1 ∧
    ((⟨1, [("a", ⟨none, some 1⟩)]⟩ : LRUCache Nat Nat).put "b" ⟨none, some 2⟩).list =
      [("a", ⟨none, some 1⟩)].drop 1 ++ [("b", ⟨none, some 2⟩)] :=
  ⟨(claim6_lru_invariants 0).1 [.put "a" ⟨none, some 1⟩, .put "b" ⟨none, some 2⟩, .get "b"],
   (claim6_lru_invariants 0).2.1 ⟨1, [("a", ⟨none, some 1⟩)]⟩ "b" ⟨none, some 2⟩
      rfl rfl (by decide)⟩

/-! ## C3 amended: with only asynchronous calls, at most one outstanding
provider invocation per key -/

theorem alookup_none_not_mem {α : Type} {l : List (String × α)} {k : String}
    (h : alookup l k = none) : k ∉ l.map Prod.fst := by
  induction l with
  | nil => simp
  | cons p rest ih =>
    by_cases hp : p.1 = k
    · simp [alookup, hp] at h
    · simp only [alookup, if_neg hp] at h
      simp only [List.map_cons, List.mem_cons]
      rintro (h1 | h2)
      · exact hp h1.symm
      · exact ih h h2

theorem nodup_snoc {α : Type} {l : List α} {a : α} (h1 : l.Nodup) (h2 : a ∉ l) :
    (l ++ [a]).Nodup := by
  rw [List.nodup_append]
  exact ⟨h1, List.nodup_singleton a,
    fun b hb hba => h2 (List.mem_singleton.mp hba ▸ hb)⟩

theorem aerase_eraseIdx {α : Type} :
    ∀ {l : List (String × α)} {i : Nat} {pa : String × α},
      (l.map Prod.fst).Nodup → l.get? i = some pa → aerase l pa.1 = l.eraseIdx i := by
  intro l
  induction l with
  | nil => intro i pa _ h; cases h
  | cons p rest ih =>
    intro i pa hnd hget
    cases i with
    | zero =>
      rw [List.get?_cons_zero] at hget
      cases hget
      simp [aerase, List.eraseIdx]
    | succ j =>
      rw [List.get?_cons_succ] at hget
      have hmem : pa ∈ rest := List.get?_mem hget
      rw [List.map_cons, List.nodup_cons] at hnd
      have hne : p.1 ≠ pa.1 := by
        intro hh
        exact hnd.1 (hh ▸ List.mem_map_of_mem Prod.fst hmem)
      simp only [aerase, if_neg hne, List.eraseIdx]
      rw [ih hnd.2 hget]

theorem nodup_keys_eraseIdx {α : Type} (l : List (String × α)) (i : Nat)
    (h : (l.map Prod.fst).Nodup) : ((l.eraseIdx i).map Prod.fst).Nodup :=
  List.Nodup.sublist (List.Sublist.map Prod.fst (List.eraseIdx_sublist l i)) h

theorem inv_step {ε ρ : Type} (s : CacheState ε ρ) (ev : Ev ε ρ) (hev : ev.isSyncEv = false)
    (h1 : s.active = s.pendingOps) (h2 : (s.pendingOps.map Prod.fst).Nodup) :
    (CacheBackend.step s ev).1.active = (CacheBackend.step s ev).1.pendingOps ∧
    ((CacheBackend.step s ev).1.pendingOps.map Prod.fst).Nodup := by
  cases ev with
  | provideSync path options outcome => simp [Ev.isSyncEv] at hev
  | purge what => cases what <;> exact ⟨h1, h2⟩
  | complete i err res =>
    cases hq : s.pendingOps.get? i with
    | none => simp only [CacheBackend.step, CacheBackend.complete, hq]; exact ⟨h1, h2⟩
    | some pa =>
      simp only [CacheBackend.step, CacheBackend.complete, hq]
      refine ⟨?_, nodup_keys_eraseIdx _ _ h2⟩
      show aerase s.active pa.1 = s.pendingOps.eraseIdx i
      rw [h1]
      exact aerase_eraseIdx h2 hq
  | provide path options cb =>
    cases path with
    | nonStr => exact ⟨h1, h2⟩
    | str p =>
      cases options with
      | true => exact ⟨h1, h2⟩
      | false =>
        cases hg : s.lru.get p with
        | mk o lru2 =>
          cases o with
          | some entry =>
            cases hee : entry.err with
            | some e => simp only [CacheBackend.step, CacheBackend.provide, hg, hee]; exact ⟨h1, h2⟩
            | none => simp only [CacheBackend.step, CacheBackend.provide, hg, hee]; exact ⟨h1, h2⟩
          | none =>
            cases ha : alookup s.active p with
            | some aid =>
              simp only [CacheBackend.step, CacheBackend.provide, hg, ha]
              exact ⟨h1, h2⟩
            | none =>
              simp only [CacheBackend.step, CacheBackend.provide, hg, ha]
              constructor
              · show s.active ++ [(p, s.arrays.length)] = s.pendingOps ++ [(p, s.arrays.length)]
                rw [h1]
              · show ((s.pendingOps ++ [(p, s.arrays.length)]).map Prod.fst).Nodup
                rw [List.map_append]
                refine nodup_snoc h2 ?_
                have hnm := alookup_none_not_mem ha
                rw [h1] at hnm
                simpa using hnm

theorem inv_run {ε ρ : Type} (evs : List (Ev ε ρ)) :
    ∀ s : CacheState ε ρ, evs.all (fun ev => !ev.isSyncEv) = true →
      s.active = s.pendingOps → (s.pendingOps.map Prod.fst).Nodup →
      (CacheBackend.runS s evs).active = (CacheBackend.runS s evs).pendingOps ∧
      ((CacheBackend.runS s evs).pendingOps.map Prod.fst).Nodup := by
  induction evs with
  | nil => intro s _ h1 h2; exact ⟨h1, h2⟩
  | cons ev evs ih =>
    intro s hall h1 h2
    rw [List.all_cons, Bool.and_eq_true] at hall
    have hev : ev.isSyncEv = false := by
      cases hb : ev.isSyncEv
      · rfl
      · rw [hb] at hall
        exact absurd hall.1 (by decide)
    have h' := inv_step s ev hev h1 h2
    exact ih _ hall.2 h'.1 h'.2

/-- C3 amended: the at-most-one-outstanding-invariant holds for the
asynchronous side alone - over any event sequence free of provideSync
calls, the outstanding async provider invocations always have pairwise
distinct keys, so a provide for an in-flight key never starts a second
invocation; a racing provideSync, however, does execute an additional
underlying sync provider invocation (see the counterexample). -/
theorem claim3_amended_async_at_most_one_per_key {ε ρ : Type} (cap : Nat)
    (evs : List (Ev ε ρ)) (h : evs.all (fun ev => !ev.isSyncEv) = true) :
    ((CacheBackend.runS (CacheState.init ε ρ cap) evs).pendingOps.map Prod.fst).Nodup :=
  (inv_run evs (CacheState.init ε ρ cap) h rfl List.nodup_nil).2

/-- Witness for the amended C3 on a concrete async-only trace. -/
theorem claim3_amended_witness :
    ((CacheBackend.runS (CacheState.init Nat Nat 5)
        [.provide (.str "a") false 0, .provide (.str "a") false 1,
         .provide (.str "b") false 2, .complete 0 none (some 2),
         .purge .noArg]).pendingOps.map Prod.fst).Nodup :=
  claim3_amended_async_at_most_one_per_key 5
    [.provide (.str "a") false 0, .provide (.str "a") false 1,
     .provide (.str "b") false 2, .complete 0 none (some 2),
     .purge .noArg] (by decide)

/-! ## C7 amended: a cached error is replayed to every later no-options
lookup of the key, with no provider invocation, until purged or evicted -/

theorem lruRemove_sublist {ε ρ : Type} (l : List (String × Entry ε ρ)) (k : String) :
    (lruRemove l k).Sublist l := by
  induction l with
  | nil => exact List.Sublist.refl []
  | cons p rest ih =>
    by_cases hp : p.1 = k
    · simp only [lruRemove, if_pos hp]
      exact List.sublist_cons_of_sublist p (List.Sublist.refl rest)
    · simp only [lruRemove, if_neg hp]
      exact List.Sublist.cons₂ p ih

theorem not_mem_keys_lruRemove {ε ρ : Type} :
    ∀ {l : List (String × Entry ε ρ)} {k : String},
      (l.map Prod.fst).Nodup → k ∉ (lruRemove l k).map Prod.fst := by
  intro l
  induction l with
  | nil => intro k _; simp [lruRemove]
  | cons p rest ih =>
    intro k hnd
    rw [List.map_cons, List.nodup_cons] at hnd
    by_cases hp : p.1 = k
    · simp only [lruRemove, if_pos hp]
      exact hp ▸ hnd.1
    · simp only [lruRemove, if_neg hp, List.map_cons, List.mem_cons]
      rintro (h1 | h2)
      · exact hp h1.symm
      · exact ih hnd.2 h2

theorem afind_append_left_none {ε ρ : Type} :
    ∀ {l1 : List (String × Entry ε ρ)} {k : String} (l2 : List (String × Entry ε ρ)),
      k ∉ l1.map Prod.fst → afind (l1 ++ l2) k = afind l2 k := by
  intro l1
  induction l1 with
  | nil => intro k l2 _; rfl
  | cons p rest ih =>
    intro k l2 h
    simp only [List.map_cons, List.mem_cons, not_or] at h
    have hp : p.1 ≠ k := fun hh => h.1 hh.symm
    simp only [List.cons_append, afind, if_neg hp]
    exact ih l2 h.2

theorem afind_promote {ε ρ : Type} {l : List (String × Entry ε ρ)} {k : String}
    (v : Entry ε ρ) (hnd : (l.map Prod.fst).Nodup) :
    afind (lruRemove l k ++ [(k, v)]) k = some v := by
  rw [afind_append_left_none [(k, v)] (not_mem_keys_lruRemove hnd)]
  simp [afind]

theorem nodup_keys_promote {ε ρ : Type} {l : List (String × Entry ε ρ)} {k : String}
    (v : Entry ε ρ) (hnd : (l.map Prod.fst).Nodup) :
    ((lruRemove l k ++ [(k, v)]).map Prod.fst).Nodup := by
  rw [List.map_append]
  exact nodup_snoc (List.Nodup.sublist (List.Sublist.map Prod.fst (lruRemove_sublist l k)) hnd)
    (not_mem_keys_lruRemove hnd)

theorem errhit_step {ε ρ : Type} (s : CacheState ε ρ) (k : String) (e : JSErr ε) (ev : Ev ε ρ)
    (hnd : (s.lru.list.map Prod.fst).Nodup)
    (hpeek : s.lru.peek k = some ⟨some e, none⟩)
    (hev : Ev.isLookupOf k ev = true) :
    (CacheBackend.step s ev).2 = errHitOut e ev ∧
    ((CacheBackend.step s ev).1.lru.list.map Prod.fst).Nodup ∧
    (CacheBackend.step s ev).1.lru.peek k = some ⟨some e, none⟩ := by
  have hfind : afind s.lru.list k = some ⟨some e, none⟩ := hpeek
  have hget : s.lru.get k =
      (some ⟨some e, none⟩,
       ⟨s.lru.cap, lruRemove s.lru.list k ++ [(k, ⟨some e, none⟩)]⟩) := by
    unfold LRUCache.get
    rw [hfind]
  cases ev with
  | complete i err res => simp [Ev.isLookupOf] at hev
  | purge what => simp [Ev.isLookupOf] at hev
  | provide path options cb =>
    cases path with
    | nonStr => simp [Ev.isLookupOf] at hev
    | str p =>
      cases options with
      | true => simp [Ev.isLookupOf] at hev
      | false =>
        have hp : p = k := by simpa [Ev.isLookupOf] using hev
        subst hp
        simp only [CacheBackend.step, CacheBackend.provide, hget]
        refine ⟨rfl, ?_, ?_⟩
        · show ((lruRemove s.lru.list p ++
              [(p, (⟨some e, none⟩ : Entry ε ρ))]).map Prod.fst).Nodup
          exact nodup_keys_promote _ hnd
        · show afind (lruRemove s.lru.list p ++ [(p, (⟨some e, none⟩ : Entry ε ρ))]) p = _
          exact afind_promote _ hnd
  | provideSync path options outcome =>
    cases path with
    | nonStr => simp [Ev.isLookupOf] at hev
    | str p =>
      cases options with
      | true => simp [Ev.isLookupOf] at hev
      | false =>
        have hp : p = k := by simpa [Ev.isLookupOf] using hev
        subst hp
        simp only [CacheBackend.step, CacheBackend.provideSync, hget]
        refine ⟨rfl, ?_, ?_⟩
        · show ((lruRemove s.lru.list p ++
              [(p, (⟨some e, none⟩ : Entry ε ρ))]).map Prod.fst).Nodup
          exact nodup_keys_promote _ hnd
        · show afind (lruRemove s.lru.list p ++ [(p, (⟨some e, none⟩ : Entry ε ρ))]) p = _
          exact afind_promote _ hnd

theorem errhit_run {ε ρ : Type} (evs : List (Ev ε ρ)) :
    ∀ (s : CacheState ε ρ) (k : String) (e : JSErr ε),
      (s.lru.list.map Prod.fst).Nodup → s.lru.peek k = some ⟨some e, none⟩ →
      evs.all (Ev.isLookupOf k) = true →
      CacheBackend.runOuts s evs = evs.map (errHitOut e) ∧
      (CacheBackend.runS s evs).lru.peek k = some ⟨some e, none⟩ := by
  induction evs with
  | nil => intro s k e _ hpeek _; exact ⟨rfl, hpeek⟩
  | cons ev evs ih =>
    intro s k e hnd hpeek hall
    rw [List.all_cons, Bool.and_eq_true] at hall
    obtain ⟨ho, hn, hp⟩ := errhit_step s k e ev hnd hpeek hall.1
    obtain ⟨ho2, hp2⟩ := ih (CacheBackend.step s ev).1 k e hn hp hall.2
    refine ⟨?_, hp2⟩
    show (CacheBackend.step s ev).2 :: CacheBackend.runOuts (CacheBackend.step s ev).1 evs = _
    rw [ho, ho2]
    rfl

theorem allCalls_errHitOut {ε ρ : Type} (e : JSErr ε) (evs : List (Ev ε ρ)) :
    allCalls ((evs.map (errHitOut e)) : List (Out ε ρ)) = [] := by
  induction evs with
  | nil => rfl
  | cons ev evs ih =>
    rw [List.map_cons, allCalls_cons, ih]
    cases ev <;> rfl

/-- C7 amended: once an error e is cached for key k (and no async
invocation for k is pending for the trace considered), every later
no-options lookup of k - async provide or provideSync - replays exactly
e (provide delivers (e, undefined) to its continuation; provideSync
throws e) and the underlying provider is never invoked, as long as no
purge occurs and the entry is not evicted; lookups of k alone can never
evict it, as the final conjunct shows the entry surviving the trace. -/
theorem claim7_amended_error_replay {ε ρ : Type} (s : CacheState ε ρ) (k : String)
    (e : JSErr ε) (evs : List (Ev ε ρ))
    (hnd : (s.lru.list.map Prod.fst).Nodup)
    (hpeek : s.lru.peek k = some ⟨some e, none⟩)
    (hevs : evs.all (Ev.isLookupOf k) = true) :
    CacheBackend.runOuts s evs = evs.map (errHitOut e) ∧
    allCalls (CacheBackend.runOuts s evs) = [] ∧
    (CacheBackend.runS s evs).lru.peek k = some ⟨some e, none⟩ := by
  obtain ⟨h1, h2⟩ := errhit_run evs s k e hnd hpeek hevs
  exact ⟨h1, by rw [h1]; exact allCalls_errHitOut e evs, h2⟩

/-- Witness for the amended C7: error 3 cached for "k", one async and one
sync lookup, both replaying the error, no provider invocation. -/
theorem claim7_amended_witness :
    CacheBackend.runOuts
        (⟨⟨4, [("k", ⟨some (.provErr 3), none⟩)]⟩, [], [], []⟩ : CacheState Nat Nat)
        [.provide (.str "k") false 0, .provideSync (.str "k") false (.ok none)] =
      ([.provide (.str "k") false 0,
        .provideSync (.str "k") false (.ok none)] : List (Ev Nat Nat)).map
          (errHitOut (.provErr 3)) ∧
    allCalls (CacheBackend.runOuts
        (⟨⟨4, [("k", ⟨some (.provErr 3), none⟩)]⟩, [], [], []⟩ : CacheState Nat Nat)
        [.provide (.str "k") false 0, .provideSync (.str "k") false (.ok none)]) = [] ∧
    (CacheBackend.runS
        (⟨⟨4, [("k", ⟨some (.provErr 3), none⟩)]⟩, [], [], []⟩ : CacheState Nat Nat)
        [.provide (.str "k") false 0,
         .provideSync (.str "k") false (.ok none)]).lru.peek "k" =
      some ⟨some (.provErr 3), none⟩ :=
  claim7_amended_error_replay
    (⟨⟨4, [("k", ⟨some (.provErr 3), none⟩)]⟩, [], [], []⟩ : CacheState Nat Nat) "k"
    (.provErr 3) [.provide (.str "k") false 0, .provideSync (.str "k") false (.ok none)]
    (by decide) rfl (by decide)

/-! ## C9 amended: a cache hit is delivered by a direct, synchronous
continuation invocation inside provide -/

/-- C9 amended: when the key is cached, provide invokes the continuation
directly during the call - with the stored error, or with the stored
result - before returning; it performs no provider invocation and leaves
pendingOps untouched, so nothing is deferred to the asynchronous
completion channel. -/
theorem claim9_amended_hit_is_reentrant {ε ρ : Type} (s : CacheState ε ρ) (k : String)
    (cb : Nat) (entry : Entry ε ρ) (hpeek : s.lru.peek k = some entry) :
    (CacheBackend.provide s (.str k) false cb).2 =
      ⟨[(cb, match entry.err with
             | some e => ((some e : Option (JSErr ε)), (none : Option ρ))
             | none => (none, entry.result))], [], none⟩ ∧
    (CacheBackend.provide s (.str k) false cb).1.pendingOps = s.pendingOps := by
  have hfind : afind s.lru.list k = some entry := hpeek
  have hget : s.lru.get k =
      (some entry, ⟨s.lru.cap, lruRemove s.lru.list k ++ [(k, entry)]⟩) := by
    unfold LRUCache.get
    rw [hfind]
  cases hee : entry.err with
  | some e =>
    simp only [CacheBackend.provide, hget, hee]
    exact ⟨rfl, rfl⟩
  | none =>
    simp only [CacheBackend.provide, hget, hee]
    exact ⟨rfl, rfl⟩

/-- Witness for the amended C9 at a concrete cached success. -/
theorem claim9_amended_witness :
    (CacheBackend.provide (⟨⟨3, [("k", ⟨none, some 8⟩)]⟩, [], [], []⟩ : CacheState Nat Nat)
        (.str "k") false 2).2 =
      ⟨[(2, match (⟨none, some 8⟩ : Entry Nat Nat).err with
            | some e => ((some e : Option (JSErr Nat)), (none : Option Nat))
            | none => (none, (⟨none, some 8⟩ : Entry Nat Nat).result))], [], none⟩ ∧
    (CacheBackend.provide (⟨⟨3, [("k", ⟨none, some 8⟩)]⟩, [], [], []⟩ : CacheState Nat Nat)
        (.str "k") false 2).1.pendingOps = [] :=
  claim9_amended_hit_is_reentrant
    (⟨⟨3, [("k", ⟨none, some 8⟩)]⟩, [], [], []⟩ : CacheState Nat Nat) "k" 2
    ⟨none, some 8⟩ rfl
